import Mathlib

/-
Shallow embedding of the image-resolution core of pkg/image (resolve.go and
charts.go): the YAML tree walkers, the image extractors, the image/source
accumulator, the mirror normalization pass, the chart-version selectors and
the final list materialization, together with models of the external
collaborators they consume (Go string primitives, the semantic-version
library, file reads surfaced as Except-valued fields).
-/

/-! Go string collaborators: byte-wise comparison (sort.Strings and
sort.Slice with a lexicographic less), strings.Split, strings.TrimSpace,
strings.ToLower, modelled on lists of characters. -/

def leChars : List Char → List Char → Bool
  | [], _ => true
  | _ :: _, [] => false
  | a :: as, b :: bs =>
    decide (a.toNat < b.toNat) || (decide (a.toNat = b.toNat) && leChars as bs)

/-- Lexicographic at-most comparison of strings, the order Go's sort.Strings
and the ascending sort.Slice in generateImageAndSourceLists sort by. -/
def strLe (a b : String) : Bool := leChars a.data b.data

def strLeR : String → String → Prop := fun a b => strLe a b = true

/-- Model of strings.Split: split a character list at every occurrence of the
separator; the empty input yields one empty field, as in Go. -/
def splitChars (sep : Char) : List Char → List (List Char)
  | [] => [[]]
  | c :: rest =>
    let r := splitChars sep rest
    if c == sep then [] :: r
    else
      match r with
      | t :: ts => (c :: t) :: ts
      | [] => [[c]]

def isSpaceChar (c : Char) : Bool := c == ' ' || c == '\t' || c == '\n' || c == '\r'

/-- Model of strings.TrimSpace on a character list. -/
def trimChars (cs : List Char) : List Char :=
  ((cs.dropWhile isSpaceChar).reverse.dropWhile isSpaceChar).reverse

/-- Model of strings.ToLower on a character list. -/
def lowerChars (cs : List Char) : List Char := cs.map Char.toLower

/-- strings.TrimSpace on a String. -/
def goTrimSpace (s : String) : String := String.mk (trimChars s.data)

theorem char_toNat_inj (a b : Char) (h : a.toNat = b.toNat) : a = b := by
  have h1 := Char.ofNat_toNat a
  have h2 := Char.ofNat_toNat b
  rw [← h1, ← h2, h]

theorem leChars_cons (a b : Char) (as bs : List Char) :
    leChars (a :: as) (b :: bs) = true ↔
      (a.toNat < b.toNat ∨ (a.toNat = b.toNat ∧ leChars as bs = true)) := by
  simp [leChars]

theorem leChars_total (as bs : List Char) : leChars as bs = true ∨ leChars bs as = true := by
  induction as generalizing bs with
  | nil => left; rfl
  | cons a as ih =>
    cases bs with
    | nil => right; rfl
    | cons b bs =>
      rw [leChars_cons, leChars_cons]
      rcases Nat.lt_trichotomy a.toNat b.toNat with h | h | h
      · left; left; exact h
      · rcases ih bs with h' | h'
        · left; right; exact ⟨h, h'⟩
        · right; right; exact ⟨h.symm, h'⟩
      · right; left; exact h

theorem leChars_trans (as bs cs : List Char) (h1 : leChars as bs = true)
    (h2 : leChars bs cs = true) : leChars as cs = true := by
  induction as generalizing bs cs with
  | nil => rfl
  | cons a as ih =>
    cases bs with
    | nil => simp [leChars] at h1
    | cons b bs =>
      cases cs with
      | nil => simp [leChars] at h2
      | cons c cs =>
        rw [leChars_cons] at h1 h2 ⊢
        rcases h1 with h1 | ⟨h1e, h1r⟩
        · rcases h2 with h2 | ⟨h2e, _⟩
          · left; omega
          · left; omega
        · rcases h2 with h2 | ⟨h2e, h2r⟩
          · left; omega
          · right; exact ⟨h1e.trans h2e, ih bs cs h1r h2r⟩

theorem leChars_antisymm (as bs : List Char) (h1 : leChars as bs = true)
    (h2 : leChars bs as = true) : as = bs := by
  induction as generalizing bs with
  | nil =>
    cases bs with
    | nil => rfl
    | cons b bs => simp [leChars] at h2
  | cons a as ih =>
    cases bs with
    | nil => simp [leChars] at h1
    | cons b bs =>
      rw [leChars_cons] at h1 h2
      rcases h1 with h1 | ⟨h1e, h1r⟩
      · rcases h2 with h2 | ⟨h2e, _⟩ <;> omega
      · rcases h2 with h2 | ⟨h2e, h2r⟩
        · omega
        · rw [char_toNat_inj a b h1e, ih bs h1r h2r]

theorem string_data_inj (a b : String) (h : a.data = b.data) : a = b := by
  cases a
  cases b
  exact congrArg String.mk h

instance : DecidableRel strLeR := fun a b => by unfold strLeR; infer_instance

instance : IsTotal String strLeR := ⟨fun a b => leChars_total a.data b.data⟩

instance : IsTrans String strLeR :=
  ⟨fun a b c h1 h2 => leChars_trans a.data b.data c.data h1 h2⟩

instance : IsAntisymm String strLeR :=
  ⟨fun a b h1 h2 => string_data_inj a b (leChars_antisymm a.data b.data h1 h2)⟩

/-! Target operating system, from resolve.go: type OSType int with the two
constants Linux and Windows. -/

inductive OSType where
  | Linux
  | Windows
deriving DecidableEq, Repr

/-! The generic parsed-configuration tree produced by the external YAML
parser: a value is a scalar, a mapping from string keys to values, or a
sequence of values (map of interface to interface and slice of interface in
the source; values.yaml keys are strings). -/

mutual
inductive YVal where
  | str (s : String)
  | int (n : Int)
  | bool (b : Bool)
  | null
  | map (m : YMap)
  | seq (l : YSeq)
deriving Repr

inductive YMap where
  | nil
  | cons (k : String) (v : YVal) (rest : YMap)
deriving Repr

inductive YSeq where
  | nil
  | cons (v : YVal) (rest : YSeq)
deriving Repr
end

deriving instance DecidableEq for YVal, YMap, YSeq

/-- Go map indexing inputMap[key]: the value under the key, or the nil
interface (modelled as none) when the key is absent. -/
def YMap.lookup : YMap → String → Option YVal
  | .nil, _ => none
  | .cons k v rest, key => if k == key then some v else YMap.lookup rest key

/-! The image and source accumulator: map from image name to a set of source
labels, map of string to map of string to bool in the source. A Go map is
modelled as an association list with unique keys; the helper operations below
mirror Go map indexing, assignment and delete. -/

abbrev SourceSet : Type := List (String × Bool)

abbrev ImagesSet : Type := List (String × SourceSet)

def imageKeys (imagesSet : ImagesSet) : List String := imagesSet.map Prod.fst

/-- Go map read imagesSet[image]: the source set under the image, or the nil
map (modelled as the empty set) when the image is absent. -/
def lookupSources (imagesSet : ImagesSet) (image : String) : SourceSet :=
  match imagesSet.find? (fun e => e.1 == image) with
  | some e => e.2
  | none => []

def containsImage (imagesSet : ImagesSet) (image : String) : Bool :=
  imagesSet.any (fun e => e.1 == image)

/-- Go map assignment m[source] = true on a source set. -/
def setTrue : SourceSet → String → SourceSet
  | [], source => [(source, true)]
  | (k, b) :: rest, source =>
    if k == source then (k, true) :: rest else (k, b) :: setTrue rest source

/-- addSourceToImage from resolve.go: ensure the image has a source map, then
set every given source to true under it. -/
def addSourceToImage : ImagesSet → String → List String → ImagesSet
  | [], image, sources => [(image, sources.foldl setTrue [])]
  | (k, srcs) :: rest, image, sources =>
    if k == image then (k, sources.foldl setTrue srcs) :: rest
    else (k, srcs) :: addSourceToImage rest image sources

/-- Go delete(imagesSet, image). -/
def eraseImage (image : String) (imagesSet : ImagesSet) : ImagesSet :=
  imagesSet.filter (fun e => !(e.1 == image))

/-- Whether a source label is present with value true in a source set, the
sense in which the sources loops (if !val: continue) read the map. -/
def sourceIsTrue (srcs : SourceSet) (source : String) : Bool :=
  match srcs.find? (fun p => p.1 == source) with
  | some p => p.2
  | none => false

/-- The source labels carried with value true, in entry order. -/
def trueSourceNames (srcs : SourceSet) : List String :=
  (srcs.filter (fun p => p.2)).map Prod.fst

/-! Basic lemmas about the accumulator operations. -/

theorem setTrue_sourceIsTrue (l : SourceSet) (src t : String) :
    sourceIsTrue (setTrue l src) t = (t == src || sourceIsTrue l t) := by
  induction l with
  | nil =>
    simp only [setTrue, sourceIsTrue, List.find?]
    by_cases h : t = src
    · subst h; simp
    · have h1 : (src == t) = false := by simpa using fun hh => h hh.symm
      have h2 : (t == src) = false := by simpa using h
      simp [h1, h2]
  | cons p rest ih =>
    obtain ⟨k, b⟩ := p
    by_cases hk : k = src
    · subst hk
      simp only [setTrue, beq_self_eq_true, if_pos]
      by_cases ht : k = t
      · subst ht
        simp [sourceIsTrue, List.find?]
      · have h1 : (k == t) = false := by simpa using ht
        have h2 : (t == k) = false := by simpa using fun hh => ht hh.symm
        simp [sourceIsTrue, List.find?, h1, h2]
    · have hk' : (k == src) = false := by simpa using hk
      simp only [setTrue, hk', Bool.false_eq_true, if_neg, not_false_eq_true]
      by_cases ht : k = t
      · subst ht
        simp [sourceIsTrue, List.find?, hk']
      · have h1 : (k == t) = false := by simpa using ht
        simp only [sourceIsTrue, List.find?, h1]
        exact ih

theorem setTrue_keys (l : SourceSet) (src : String) :
    (setTrue l src).map Prod.fst =
      if l.any (fun p => p.1 == src) = true then l.map Prod.fst
      else l.map Prod.fst ++ [src] := by
  induction l with
  | nil => simp [setTrue]
  | cons p rest ih =>
    obtain ⟨k, b⟩ := p
    by_cases hk : k = src
    · subst hk
      simp [setTrue]
    · have hk' : (k == src) = false := by simpa using hk
      simp only [setTrue, hk', Bool.false_eq_true, if_neg, not_false_eq_true, List.any_cons]
      by_cases hrest : rest.any (fun p => p.1 == src) = true
      · simp [hrest, ih]
      · simp [hrest, ih]

theorem lookupSources_addSourceToImage (s : ImagesSet) (image src i : String) :
    lookupSources (addSourceToImage s image [src]) i =
      if i = image then setTrue (lookupSources s image) src else lookupSources s i := by
  induction s with
  | nil =>
    by_cases h : i = image
    · subst h
      simp [addSourceToImage, lookupSources, List.find?]
    · have h1 : (image == i) = false := by simpa using fun hh => h hh.symm
      simp [addSourceToImage, lookupSources, List.find?, h1, h]
  | cons e rest ih =>
    obtain ⟨k, srcs⟩ := e
    by_cases hk : k = image
    · subst hk
      simp only [addSourceToImage, beq_self_eq_true, if_pos, List.foldl]
      by_cases hi : i = k
      · subst hi
        simp [lookupSources, List.find?]
      · have h1 : (k == i) = false := by simpa using fun hh => hi hh.symm
        simp [lookupSources, List.find?, h1, hi]
    · have hk' : (k == image) = false := by simpa using hk
      simp only [addSourceToImage, hk', Bool.false_eq_true, if_neg, not_false_eq_true]
      by_cases hi : i = k
      · subst hi
        have h2 : (i == image) = false := by simpa using hk
        simp [lookupSources, List.find?, hk]
      · have h1 : (k == i) = false := by simpa using fun hh => hi hh.symm
        simp only [lookupSources, List.find?, h1, Bool.false_eq_true, not_false_eq_true]
        by_cases him : i = image
        · subst him
          simpa [lookupSources, List.find?, h1] using ih
        · simpa [lookupSources, List.find?, h1, him] using ih

theorem imageKeys_addSourceToImage_mem (s : ImagesSet) (image : String) (srcs : List String)
    (i : String) :
    i ∈ imageKeys (addSourceToImage s image srcs) ↔ i ∈ imageKeys s ∨ i = image := by
  induction s with
  | nil => simp [addSourceToImage, imageKeys]
  | cons e rest ih =>
    obtain ⟨k, ss⟩ := e
    by_cases hk : k = image
    · subst hk
      simp only [addSourceToImage, beq_self_eq_true, if_pos]
      simp only [imageKeys, List.map_cons, List.mem_cons]
      constructor
      · rintro (h | h)
        · right; exact h
        · left; right; exact h
      · rintro ((h | h) | h)
        · left; exact h
        · right; exact h
        · left; exact h
    · have hk' : (k == image) = false := by simpa using hk
      simp only [addSourceToImage, hk', Bool.false_eq_true, if_neg, not_false_eq_true]
      simp only [imageKeys, List.map_cons, List.mem_cons] at ih ⊢
      constructor
      · rintro (h | h)
        · left; left; exact h
        · rcases (ih.mp h) with h' | h'
          · left; right; exact h'
          · right; exact h'
      · rintro ((h | h) | h)
        · left; exact h
        · right; exact ih.mpr (Or.inl h)
        · right; exact ih.mpr (Or.inr h)

theorem lookupSources_eraseImage (s : ImagesSet) (image i : String) :
    lookupSources (eraseImage image s) i =
      if i = image then [] else lookupSources s i := by
  induction s with
  | nil => simp [eraseImage, lookupSources, List.find?]
  | cons e rest ih =>
    obtain ⟨k, srcs⟩ := e
    by_cases hk : k = image
    · subst hk
      simp only [eraseImage, List.filter_cons, beq_self_eq_true, Bool.not_true,
        Bool.false_eq_true, if_neg, not_false_eq_true]
      by_cases hi : i = k
      · subst hi
        simpa [eraseImage, lookupSources] using ih
      · have h1 : (k == i) = false := by simpa using fun hh => hi hh.symm
        simpa [eraseImage, lookupSources, List.find?, h1, hi] using ih
    · have hk' : (k == image) = false := by simpa using hk
      simp only [eraseImage, List.filter_cons, hk', Bool.not_false, if_pos]
      by_cases hi : i = k
      · subst hi
        have h2 : i ≠ image := hk
        simp [lookupSources, List.find?, h2]
      · have h1 : (k == i) = false := by simpa using fun hh => hi hh.symm
        simpa [eraseImage, lookupSources, List.find?, h1] using ih

theorem imageKeys_eraseImage_mem (s : ImagesSet) (image i : String) :
    i ∈ imageKeys (eraseImage image s) ↔ i ∈ imageKeys s ∧ i ≠ image := by
  simp only [imageKeys, eraseImage, List.mem_map, List.mem_filter]
  constructor
  · rintro ⟨e, ⟨he, hne⟩, rfl⟩
    refine ⟨⟨e, he, rfl⟩, ?_⟩
    simpa using hne
  · rintro ⟨⟨e, he, rfl⟩, hni⟩
    exact ⟨e, ⟨he, by simpa using hni⟩, rfl⟩

theorem mem_trueSourceNames_iff (l : SourceSet) (t : String) :
    t ∈ trueSourceNames l ↔ (t, true) ∈ l := by
  constructor
  · intro h
    rcases List.mem_map.mp h with ⟨p, hp, hfst⟩
    rcases List.mem_filter.mp hp with ⟨hmem, hsnd⟩
    have hpt : p = (t, true) := by
      obtain ⟨a, b⟩ := p
      exact congrArg₂ Prod.mk hfst (by simpa using hsnd)
    rwa [hpt] at hmem
  · intro h
    have hf : (t, true) ∈ l.filter (fun p => p.2) := List.mem_filter.mpr ⟨h, rfl⟩
    exact List.mem_map.mpr ⟨(t, true), hf, rfl⟩

theorem sourceIsTrue_pair_mem (l : SourceSet) (t : String)
    (h : sourceIsTrue l t = true) : (t, true) ∈ l := by
  induction l with
  | nil => simp [sourceIsTrue, List.find?] at h
  | cons p rest ih =>
    obtain ⟨k, b⟩ := p
    by_cases hk : k = t
    · subst hk
      simp only [sourceIsTrue, List.find?, beq_self_eq_true] at h
      simp only [h]
      exact List.mem_cons_self _ _
    · have h1 : (k == t) = false := by simpa using hk
      simp only [sourceIsTrue, List.find?, h1] at h
      exact List.mem_cons_of_mem _ (ih h)

theorem pair_mem_sourceIsTrue (l : SourceSet) (t : String)
    (hnd : (l.map Prod.fst).Nodup) (h : (t, true) ∈ l) : sourceIsTrue l t = true := by
  induction l with
  | nil => simp at h
  | cons p rest ih =>
    obtain ⟨k, b⟩ := p
    simp only [List.map_cons, List.nodup_cons] at hnd
    rcases List.mem_cons.mp h with h | h
    · have hk : k = t := (congrArg Prod.fst h).symm
      have hb : b = true := congrArg Prod.snd h.symm
      subst hk
      simp [sourceIsTrue, List.find?, hb]
    · by_cases hk : k = t
      · subst hk
        exact absurd (List.mem_map_of_mem Prod.fst h) hnd.1
      · have h1 : (k == t) = false := by simpa using hk
        simp only [sourceIsTrue, List.find?, h1]
        exact ih hnd.2 h

theorem sourceIsTrue_mem_trueSourceNames (l : SourceSet) (t : String)
    (h : sourceIsTrue l t = true) : t ∈ trueSourceNames l :=
  (mem_trueSourceNames_iff l t).mpr (sourceIsTrue_pair_mem l t h)

theorem mem_trueSourceNames_sourceIsTrue (l : SourceSet) (t : String)
    (hnd : (l.map Prod.fst).Nodup) (h : t ∈ trueSourceNames l) : sourceIsTrue l t = true :=
  pair_mem_sourceIsTrue l t hnd ((mem_trueSourceNames_iff l t).mp h)

theorem sourceIsTrue_monotone_add (s : ImagesSet) (image src i t : String)
    (h : sourceIsTrue (lookupSources s i) t = true) :
    sourceIsTrue (lookupSources (addSourceToImage s image [src]) i) t = true := by
  rw [lookupSources_addSourceToImage]
  by_cases hi : i = image
  · subst hi
    rw [if_pos rfl, setTrue_sourceIsTrue, h]
    simp
  · rwa [if_neg hi]

theorem imageKeys_mem_addSourceToImage_of_mem (s : ImagesSet) (image : String)
    (srcs : List String) (i : String) (h : i ∈ imageKeys s) :
    i ∈ imageKeys (addSourceToImage s image srcs) :=
  (imageKeys_addSourceToImage_mem s image srcs i).mpr (Or.inl h)

/-! Model of fmt's %v rendering, used by the image-name synthesis
fmt.Sprintf("%s:%v", repo, tag): strings print bare, integers in decimal,
booleans as true or false, the nil interface as <nil>, composites with Go's
bracketed forms. -/

mutual
def goFormatV : YVal → String
  | .str s => s
  | .int n => toString n
  | .bool b => if b then "true" else "false"
  | .null => "<nil>"
  | .map m => "map[" ++ goFormatEntries m ++ "]"
  | .seq l => "[" ++ goFormatSeq l ++ "]"

def goFormatEntries : YMap → String
  | .nil => ""
  | .cons k v .nil => k ++ ":" ++ goFormatV v
  | .cons k v rest => k ++ ":" ++ goFormatV v ++ " " ++ goFormatEntries rest

def goFormatSeq : YSeq → String
  | .nil => ""
  | .cons v .nil => goFormatV v
  | .cons v rest => goFormatV v ++ " " ++ goFormatSeq rest
end

/-- generateImages from resolve.go: require a string repository and a present
tag (any type, stringified), then gate on the os field, recognizing only the
exact string windows for the Windows branch; every other value of os
(absent, nil, a comma list, a non-string) takes the default Linux branch. -/
def generateImages (chartNameAndVersion : String) (inputMap : YMap)
    (output : ImagesSet) (osType : OSType) : ImagesSet :=
  match inputMap.lookup "repository" with
  | some (.str repo) =>
    match inputMap.lookup "tag" with
    | some tag =>
      match inputMap.lookup "os" with
      | some (.str "windows") =>
        if osType == .Windows then
          addSourceToImage output (repo ++ ":" ++ goFormatV tag) [chartNameAndVersion]
        else output
      | _ =>
        if osType == .Linux then
          addSourceToImage output (repo ++ ":" ++ goFormatV tag) [chartNameAndVersion]
        else output
    | none => output
  | _ => output

/-- The loop over the comma-separated os list in pickImagesFromValuesMap:
trim and lowercase each token; on a windows token add and stop when the
target is Windows, on a linux token add and stop when the target is Linux;
other tokens are skipped; no matching token means no emission. -/
def osListMatches (tokens : List (List Char)) (osType : OSType) : Bool :=
  match tokens with
  | [] => false
  | tok :: rest =>
    let t := lowerChars (trimChars tok)
    if t == "windows".data then
      if osType == .Windows then true else osListMatches rest osType
    else if t == "linux".data then
      if osType == .Linux then true else osListMatches rest osType
    else osListMatches rest osType

/-- The visitor closure of pickImagesFromValuesMap in charts.go: require a
string repository and a string tag; when the os field is a string, split it
on commas and emit on the first token matching the target OS; when the os
field is absent, nil or not a string, emit for a Linux target only (the
non-string diagnostic in the source is built and discarded). -/
def pickVisitor (imagesSet : ImagesSet) (chartNameAndVersion : String) (osType : OSType)
    (inputMap : YMap) : ImagesSet :=
  match inputMap.lookup "repository" with
  | some (.str repository) =>
    match inputMap.lookup "tag" with
    | some (.str tag) =>
      let imageName := repository ++ ":" ++ tag
      match inputMap.lookup "os" with
      | some (.str osList) =>
        if osListMatches (splitChars ',' osList.data) osType then
          addSourceToImage imagesSet imageName [chartNameAndVersion]
        else imagesSet
      | _ =>
        if osType == .Linux then
          addSourceToImage imagesSet imageName [chartNameAndVersion]
        else imagesSet
    | _ => imagesSet
  | _ => imagesSet

/-! The two tree walkers. walkMap, from charts.go, takes an arbitrary parsed
value: a mapping is passed to the visitor and every entry value is walked; a
sequence is not passed to the visitor but every element is walked; scalars
are a no-op. walkthroughMap, from resolve.go, takes a mapping, passes it to
the visitor and recurses only into entry values that are themselves
mappings. The Go visitors mutate the accumulator; here the walkers thread an
explicit state through the visitor. -/

mutual
def walkMap {σ : Type} (data : YVal) (walkFunc : σ → YMap → σ) (s : σ) : σ :=
  match data with
  | .map inputMap => walkMapEntries inputMap walkFunc (walkFunc s inputMap)
  | .seq inputList => walkMapSeq inputList walkFunc s
  | _ => s

def walkMapEntries {σ : Type} (m : YMap) (walkFunc : σ → YMap → σ) (s : σ) : σ :=
  match m with
  | .nil => s
  | .cons _ v rest => walkMapEntries rest walkFunc (walkMap v walkFunc s)

def walkMapSeq {σ : Type} (l : YSeq) (walkFunc : σ → YMap → σ) (s : σ) : σ :=
  match l with
  | .nil => s
  | .cons v rest => walkMapSeq rest walkFunc (walkMap v walkFunc s)
end

def walkthroughMapEntries {σ : Type} : YMap → (σ → YMap → σ) → σ → σ
  | .nil, _, s => s
  | .cons _ (.map v) rest, walkFunc, s =>
    walkthroughMapEntries rest walkFunc (walkthroughMapEntries v walkFunc (walkFunc s v))
  | .cons _ _ rest, walkFunc, s => walkthroughMapEntries rest walkFunc s

def walkthroughMap {σ : Type} (inputMap : YMap) (walkFunc : σ → YMap → σ) (s : σ) : σ :=
  walkthroughMapEntries inputMap walkFunc (walkFunc s inputMap)

/-! specMapNodes is modelled from the spec: the mapping nodes of a parsed
tree in depth-first pre-order, the root included, recursing into every
mapping value and into every sequence element; scalars contribute nothing. -/
mutual
def specMapNodes : YVal → List YMap
  | .map m => m :: specMapNodesEntries m
  | .seq l => specMapNodesSeq l
  | _ => []

def specMapNodesEntries : YMap → List YMap
  | .nil => []
  | .cons _ v rest => specMapNodes v ++ specMapNodesEntries rest

def specMapNodesSeq : YSeq → List YMap
  | .nil => []
  | .cons v rest => specMapNodes v ++ specMapNodesSeq rest
end

/-! mapOnlyNodes: the mapping nodes reachable from a mapping through chains
of map-valued entries only, in pre-order: the nodes walkthroughMap actually
reaches. -/
def mapOnlyNodesEntries : YMap → List YMap
  | .nil => []
  | .cons _ (.map v) rest => (v :: mapOnlyNodesEntries v) ++ mapOnlyNodesEntries rest
  | .cons _ _ rest => mapOnlyNodesEntries rest

def mapOnlyNodes (m : YMap) : List YMap := m :: mapOnlyNodesEntries m

/-- pickImagesFromValuesMap from charts.go: walk the values map with the
image-picking visitor; always returns a nil error. -/
def pickImagesFromValuesMap (imagesSet : ImagesSet) (values : YMap)
    (chartNameAndVersion : String) (osType : OSType) : Except String ImagesSet :=
  .ok (walkMap (.map values)
    (fun acc inputMap => pickVisitor acc chartNameAndVersion osType inputMap) imagesSet)

/-! The mirror normalization pass, convertMirroredImages from resolve.go.
The Go loop ranges over the map while mutating it; deleted keys are not
revisited and the keys it inserts are canonical fixed points of an
idempotent rule, so the pass is modelled as a fold over the snapshot of keys
present at entry, reading each key's current sources from the evolving
accumulator. -/

def convLoop (mirror : String → String) : List String → ImagesSet → ImagesSet
  | [], imagesSet => imagesSet
  | image :: rest, imagesSet =>
    let convertedImage := mirror image
    if image = convertedImage then convLoop mirror rest imagesSet
    else
      convLoop mirror rest
        (eraseImage image
          ((trueSourceNames (lookupSources imagesSet image)).foldl
            (fun acc source => addSourceToImage acc convertedImage [source]) imagesSet))

def convertMirroredImages (mirror : String → String) (imagesSet : ImagesSet) : ImagesSet :=
  convLoop mirror (imageKeys imagesSet) imagesSet

/-! Final list materialization, generateImageAndSourceLists and
getSourcesList from resolve.go: collect the image keys, sort them
ascending, and render each image with its comma-joined sorted true
sources. -/

/-- The sources with value true, sorted ascending (sort.Strings). -/
def sortedTrueSources (imageSources : SourceSet) : List String :=
  List.insertionSort strLeR (trueSourceNames imageSources)

/-- getSourcesList from resolve.go: the true sources, sorted and joined with
commas. -/
def getSourcesList (imageSources : SourceSet) : String :=
  String.intercalate "," (sortedTrueSources imageSources)

/-- generateImageAndSourceLists from resolve.go: the unique image names
sorted ascending, and in the same order each image followed by a space and
its source list. -/
def generateImageAndSourceLists (imagesSet : ImagesSet) : List String × List String :=
  let images := List.insertionSort strLeR (imageKeys imagesSet)
  (images, images.map (fun image => image ++ " " ++ getSourcesList (lookupSources imagesSet image)))

/-! The orchestration steps of GetImages from resolve.go that do not touch
the filesystem. The two chart fetch phases and the system-image flattening
call external collaborators (index loading, file walks, structure
conversion), so GetImages takes them as function arguments; everything
downstream of them is the code's own pure pipeline. -/

/-- setImages from resolve.go. -/
def setImages (source : String) (imagesFromArgs : List String) (imagesSet : ImagesSet) :
    ImagesSet :=
  imagesFromArgs.foldl (fun acc image => addSourceToImage acc image [source]) imagesSet

/-- setRequirementImages from resolve.go: for a Linux target, add the
configured shell image and busybox under the core label; for Windows, add
nothing. -/
def setRequirementImages (shellImage : String) (osType : OSType) (imagesSet : ImagesSet) :
    ImagesSet :=
  match osType with
  | .Linux => addSourceToImage (addSourceToImage imagesSet shellImage ["core"]) "busybox" ["core"]
  | .Windows => imagesSet

/-- errors.Wrap: tag a propagated error with the failing stage name. -/
def wrapErr (msg : String) : Except String ImagesSet → Except String ImagesSet
  | .error e => .error (msg ++ ": " ++ e)
  | .ok v => .ok v

/-- GetImages from resolve.go: run the two chart phases and the system-image
phase when their inputs are supplied, then the pure steps: requirement
images, the two caller-supplied lists, mirror normalization, and the final
sorted lists. Always returns the lists with a nil error when no phase
fails. -/
def GetImages {ρ : Type}
    (fetchImagesFromCharts : String → String → OSType → ImagesSet → Except String ImagesSet)
    (fetchImagesFromSystem : List ρ → OSType → ImagesSet → Except String ImagesSet)
    (mirror : String → String) (shellImage : String)
    (systemChartPath chartPath rancherVersion : String)
    (k3sUpgradeImages imagesFromArgs : List String)
    (rkeSystemImages : List ρ) (osType : OSType) :
    Except String (List String × List String) :=
  match (if systemChartPath != "" then
      wrapErr "failed to fetch images from system charts"
        (fetchImagesFromCharts systemChartPath rancherVersion osType []) else .ok []) with
  | .error e => .error e
  | .ok s1 =>
    match (if chartPath != "" then
        wrapErr "failed to fetch images from charts"
          (fetchImagesFromCharts chartPath rancherVersion osType s1) else .ok s1) with
    | .error e => .error e
    | .ok s2 =>
      match (if 0 < rkeSystemImages.length then
          wrapErr "failed to fetch images from system images"
            (fetchImagesFromSystem rkeSystemImages osType s2) else .ok s2) with
      | .error e => .error e
      | .ok s3 =>
        .ok (generateImageAndSourceLists
          (convertMirroredImages mirror
            (setImages "k3sUpgrade" k3sUpgradeImages
              (setImages "rancher" imagesFromArgs
                (setRequirementImages shellImage osType s3)))))

/-! Model of the external semantic-version collaborator
(Masterminds/semver), consumed as a black box by both selectors: versions
parse from dotted decimal cores with an optional prerelease after a dash;
comparison is lexicographic on the numeric core, a version without
prerelease outranking one with, prereleases falling back to string order. -/

structure SemVer where
  major : Nat
  minor : Nat
  patch : Nat
  pre : String
deriving DecidableEq, Repr

def parseNatDigits (cs : List Char) : Option Nat :=
  if cs.isEmpty then none
  else if cs.all Char.isDigit then
    some (cs.foldl (fun acc c => acc * 10 + (c.toNat - '0'.toNat)) 0)
  else none

/-- Break a character list at the first dash: the version core and the
prerelease part (empty when there is no dash). -/
def breakAtDash : List Char → (List Char × List Char)
  | [] => ([], [])
  | c :: rest =>
    if c == '-' then ([], rest)
    else
      let r := breakAtDash rest
      (c :: r.1, r.2)

/-- semver.NewVersion: parse major, minor and patch from the dotted core
(one to three segments, omitted segments zero) with an optional prerelease
suffix, or report an invalid version. -/
def semverNewVersion (s : String) : Except String SemVer :=
  let parts := breakAtDash s.data
  let core := splitChars '.' parts.1
  match core with
  | [maj] =>
    match parseNatDigits maj with
    | some m => .ok ⟨m, 0, 0, String.mk parts.2⟩
    | none => .error ("Invalid Semantic Version: " ++ s)
  | [maj, mino] =>
    match parseNatDigits maj, parseNatDigits mino with
    | some m, some mi => .ok ⟨m, mi, 0, String.mk parts.2⟩
    | _, _ => .error ("Invalid Semantic Version: " ++ s)
  | [maj, mino, pat] =>
    match parseNatDigits maj, parseNatDigits mino, parseNatDigits pat with
    | some m, some mi, some p => .ok ⟨m, mi, p, String.mk parts.2⟩
    | _, _, _ => .error ("Invalid Semantic Version: " ++ s)
  | _ => .error ("Invalid Semantic Version: " ++ s)

def preCompare (a b : String) : Ordering :=
  if a == b then .eq
  else if a == "" then .gt
  else if b == "" then .lt
  else if strLe a b then .lt else .gt

def semverCompare (a b : SemVer) : Ordering :=
  if a.major ≠ b.major then compare a.major b.major
  else if a.minor ≠ b.minor then compare a.minor b.minor
  else if a.patch ≠ b.patch then compare a.patch b.patch
  else preCompare a.pre b.pre

def semverGreaterThan (a b : SemVer) : Bool := semverCompare a b == .gt

def semverLessThan (a b : SemVer) : Bool := semverCompare a b == .lt

def semverEqual (a b : SemVer) : Bool := semverCompare a b == .eq

/-- Version.SetPrerelease: replace the prerelease (the empty replacement the
code uses always succeeds). -/
def setPrerelease (v : SemVer) (p : String) : SemVer := { v with pre := p }

/-- The three constraint shapes minMaxToConstraintStr can build: an
inclusive dash range, a lower bound, an upper bound. -/
inductive ConstraintModel where
  | range (lo hi : SemVer)
  | atLeast (lo : SemVer)
  | atMost (hi : SemVer)
deriving DecidableEq, Repr

/-- semver.NewConstraint restricted to the shapes this code emits. -/
def semverNewConstraint (s : String) : Except String ConstraintModel :=
  match (splitChars ' ' s.data).map String.mk with
  | [lo, "-", hi] =>
    match semverNewVersion lo, semverNewVersion hi with
    | .ok l, .ok h => .ok (.range l h)
    | .error e, _ => .error e
    | _, .error e => .error e
  | [">=", v] =>
    match semverNewVersion v with
    | .ok l => .ok (.atLeast l)
    | .error e => .error e
  | ["<=", v] =>
    match semverNewVersion v with
    | .ok h => .ok (.atMost h)
    | .error e => .error e
  | _ => .error ("improper constraint: " ++ s)

/-- Constraint.Check against a version. -/
def constraintCheck (c : ConstraintModel) (v : SemVer) : Bool :=
  match c with
  | .range lo hi =>
    (semverGreaterThan v lo || semverEqual v lo) && (semverLessThan v hi || semverEqual v hi)
  | .atLeast lo => semverGreaterThan v lo || semverEqual v lo
  | .atMost hi => semverLessThan v hi || semverEqual v hi

/-! The charts.go selector: wrapper chart versions carrying the decoded
questions (decodeQuestions reads the questions file from disk, so its
outcome is part of the input), the min and max to constraint conversion,
the range check, the per-chart filter and the error-skipping filter loop. -/

structure Questions where
  rancherMinVersion : String
  rancherMaxVersion : String
deriving DecidableEq, Repr

deriving instance DecidableEq for Except

/-- A chart version of the charts.go wrapper type, its questions-file decode
outcome included. -/
structure ChartVersionC where
  name : String
  version : String
  questions : Except String Questions
deriving DecidableEq, Repr

/-- minMaxToConstraintStr from charts.go. -/
def minMaxToConstraintStr (minV maxV : String) : String :=
  if minV != "" && maxV != "" then minV ++ " - " ++ maxV
  else if minV != "" then ">= " ++ minV
  else if maxV != "" then "<= " ++ maxV
  else ""

/-- IsRancherVersionInRange from charts.go: reject the empty constraint,
parse the rancher version, strip its prerelease, parse the constraint and
check membership. -/
def IsRancherVersionInRange (rancherVersion constraintStr : String) : Except String Bool :=
  if constraintStr == "" then
    .error ("Invalid constraint string: " ++ constraintStr)
  else
    match semverNewVersion rancherVersion with
    | .error e => .error e
    | .ok rancherSemVer =>
      let rancherSemVerNoPreRelease := setPrerelease rancherSemVer ""
      match semverNewConstraint constraintStr with
      | .error e => .error e
      | .ok constraint => .ok (constraintCheck constraint rancherSemVerNoPreRelease)

/-- SystemCharts.filterFunc from charts.go: decode the questions (surfaced
on the version), build the constraint from min and max, and test the
rancher version against it. -/
def systemChartsFilterFunc (rancherVersion : String) (chartVersion : ChartVersionC) :
    Except String Bool :=
  match chartVersion.questions with
  | .error e => .error e
  | .ok questions =>
    IsRancherVersionInRange rancherVersion
      (minMaxToConstraintStr questions.rancherMinVersion questions.rancherMaxVersion)

/-- The loop of filterChartVersions from charts.go: a version whose filter
evaluation fails is logged and skipped; a version whose filter returns true
is kept; any other version is dropped. -/
def filterLoop (filterFunc : ChartVersionC → Except String Bool) :
    List ChartVersionC → List ChartVersionC
  | [] => []
  | version :: rest =>
    match filterFunc version with
    | .error _ => filterLoop filterFunc rest
    | .ok true => version :: filterLoop filterFunc rest
    | .ok false => filterLoop filterFunc rest

/-- filterChartVersions from charts.go: run the loop; the error returned is
always nil. -/
def filterChartVersions (filterFunc : ChartVersionC → Except String Bool)
    (chartVersions : List ChartVersionC) : Except String (List ChartVersionC) :=
  .ok (filterLoop filterFunc chartVersions)

/-! The resolve.go selector getVersionsInRancherMinMaxRange: chart versions
carry the outcome of fetchVersionQuestions (a raw YAML map, read from disk),
min and max are read out of it with string type assertions defaulting to
empty, and a version is kept when the rancher version lies in its declared
min and max range; any error aborts the selector; when nothing was kept the
newest version (the head of the newest-first list) is kept as fallback. -/

/-- A chart version as the resolve.go path sees it, the outcome of
fetchVersionQuestions included. -/
structure ChartVersionR where
  name : String
  version : String
  questionsMap : Except String YMap
deriving DecidableEq

/-- The string type assertion questions[key].(string) with its zero-value
default. -/
def questionStringField (m : YMap) (key : String) : String :=
  match m.lookup key with
  | some (.str s) => s
  | _ => ""

/-- The per-version body of the loop in getVersionsInRancherMinMaxRange:
whether the version is appended to the range-filtered list, or the error
that aborts the whole selector. A version with no declared minimum is never
appended by this path. -/
def rancherVersionInMinMax (rancherVersion : String) (v : ChartVersionR) :
    Except String Bool :=
  match v.questionsMap with
  | .error e => .error e
  | .ok questions =>
    let minV := questionStringField questions "rancher_min_version"
    let maxV := questionStringField questions "rancher_max_version"
    if 0 < minV.length then
      match semverNewVersion (goTrimSpace rancherVersion) with
      | .error e => .error e
      | .ok rancherSemVer =>
        match semverNewVersion (goTrimSpace minV) with
        | .error e => .error e
        | .ok minSemVer =>
          if 0 < maxV.length then
            match semverNewVersion (goTrimSpace maxV) with
            | .error e => .error e
            | .ok maxSemVer =>
              .ok ((semverGreaterThan rancherSemVer minSemVer ||
                  semverEqual rancherSemVer minSemVer) &&
                (semverLessThan rancherSemVer maxSemVer ||
                  semverEqual rancherSemVer maxSemVer))
          else
            .ok (semverGreaterThan rancherSemVer minSemVer ||
              semverEqual rancherSemVer minSemVer)
    else .ok false

/-- The version loop of getVersionsInRancherMinMaxRange, appending the
versions that pass and aborting on the first error. -/
def gvLoop (rancherVersion : String) :
    List ChartVersionR → List ChartVersionR → Except String (List ChartVersionR)
  | [], acc => .ok acc
  | v :: rest, acc =>
    match rancherVersionInMinMax rancherVersion v with
    | .error e => .error e
    | .ok true => gvLoop rancherVersion rest (acc ++ [v])
    | .ok false => gvLoop rancherVersion rest acc

/-- getVersionsInRancherMinMaxRange from resolve.go: run the loop over the
newest-first versions; if the loop aborted, propagate its error; if it kept
nothing, keep exactly the newest version as fallback. The call site
guarantees a nonempty version list, so the empty case (a Go index panic) is
unreachable. -/
def getVersionsInRancherMinMaxRange (rancherVersion : String)
    (versions : List ChartVersionR) : Except String (List ChartVersionR) :=
  match gvLoop rancherVersion versions [] with
  | .error e => .error e
  | .ok chartVersions =>
    if chartVersions.length ≤ 0 then
      match versions with
      | [] => .ok chartVersions
      | v0 :: _ => .ok (chartVersions ++ [v0])
    else .ok chartVersions

/-! Walker correspondence: each walker equals a single fold of the visitor
over its node list, so the visitor is invoked exactly once per listed node,
only mapping nodes are ever passed to it, and scalars contribute nothing. -/

mutual
theorem walkMap_foldl {σ : Type} (data : YVal) (f : σ → YMap → σ) (s : σ) :
    walkMap data f s = (specMapNodes data).foldl f s := by
  cases data with
  | map m => simp [walkMap, specMapNodes, walkMapEntries_foldl]
  | seq l => simp [walkMap, specMapNodes, walkMapSeq_foldl]
  | str v => simp [walkMap, specMapNodes]
  | int v => simp [walkMap, specMapNodes]
  | bool v => simp [walkMap, specMapNodes]
  | null => simp [walkMap, specMapNodes]

theorem walkMapEntries_foldl {σ : Type} (m : YMap) (f : σ → YMap → σ) (s : σ) :
    walkMapEntries m f s = (specMapNodesEntries m).foldl f s := by
  cases m with
  | nil => simp [walkMapEntries, specMapNodesEntries]
  | cons k v rest =>
    simp [walkMapEntries, specMapNodesEntries, List.foldl_append, walkMap_foldl,
      walkMapEntries_foldl]

theorem walkMapSeq_foldl {σ : Type} (l : YSeq) (f : σ → YMap → σ) (s : σ) :
    walkMapSeq l f s = (specMapNodesSeq l).foldl f s := by
  cases l with
  | nil => simp [walkMapSeq, specMapNodesSeq]
  | cons v rest =>
    simp [walkMapSeq, specMapNodesSeq, List.foldl_append, walkMap_foldl, walkMapSeq_foldl]
end

theorem walkthroughMapEntries_foldl {σ : Type} :
    ∀ (m : YMap) (f : σ → YMap → σ) (s : σ),
      walkthroughMapEntries m f s = (mapOnlyNodesEntries m).foldl f s
  | .nil, f, s => rfl
  | .cons k (.map v) rest, f, s => by
    simp [walkthroughMapEntries, mapOnlyNodesEntries, List.foldl_append,
      walkthroughMapEntries_foldl v, walkthroughMapEntries_foldl rest]
  | .cons k (.str x) rest, f, s => by
    simp [walkthroughMapEntries, mapOnlyNodesEntries, walkthroughMapEntries_foldl rest]
  | .cons k (.int x) rest, f, s => by
    simp [walkthroughMapEntries, mapOnlyNodesEntries, walkthroughMapEntries_foldl rest]
  | .cons k (.bool x) rest, f, s => by
    simp [walkthroughMapEntries, mapOnlyNodesEntries, walkthroughMapEntries_foldl rest]
  | .cons k .null rest, f, s => by
    simp [walkthroughMapEntries, mapOnlyNodesEntries, walkthroughMapEntries_foldl rest]
  | .cons k (.seq x) rest, f, s => by
    simp [walkthroughMapEntries, mapOnlyNodesEntries, walkthroughMapEntries_foldl rest]

theorem walkthroughMap_foldl {σ : Type} (m : YMap) (f : σ → YMap → σ) (s : σ) :
    walkthroughMap m f s = (mapOnlyNodes m).foldl f s := by
  simp [walkthroughMap, mapOnlyNodes, walkthroughMapEntries_foldl]

/-- C3 (amended): the charts.go walker walkMap invokes its visitor exactly
once per mapping node of the parsed tree, the root included and mapping
nodes nested inside sequences included, in pre-order: it equals one fold of
the visitor over the tree's full mapping-node list; sequences are never
passed to the visitor and scalars are a no-op. The resolve.go walker
walkthroughMap instead visits exactly the mapping nodes reachable through
chains of map-valued entries, so mapping nodes nested inside sequences are
not visited by it. -/
theorem treeWalker_visits_every_mapping_node {σ : Type} (data : YVal) (inputMap : YMap)
    (f : σ → YMap → σ) (s : σ) :
    walkMap data f s = (specMapNodes data).foldl f s ∧
    walkthroughMap inputMap f s = (mapOnlyNodes inputMap).foldl f s :=
  ⟨walkMap_foldl data f s, walkthroughMap_foldl inputMap f s⟩

/-- A mapping whose only entry holds a sequence containing one mapping (an
image declaration): the tree has two mapping nodes. -/
def cexSeqMap : YMap :=
  .cons "k" (.seq (.cons (.map (.cons "repository" (.str "r") .nil)) .nil)) .nil

/-- C3 counterexample: on a tree whose two mapping nodes are the root and a
mapping nested inside a sequence, walkthroughMap invokes the visitor exactly
once, not once per mapping node as the claim requires of the walker. -/
theorem walkthroughMap_misses_sequence_nested_map :
    walkthroughMap cexSeqMap (fun n (_ : YMap) => n + 1) 0 = 1 ∧
    (specMapNodes (.map cexSeqMap)).length = 2 :=
  ⟨rfl, rfl⟩

/-! Emission facts shared by the extractor claims. -/

theorem sourceIsTrue_after_add (s : ImagesSet) (img src : String) :
    sourceIsTrue (lookupSources (addSourceToImage s img [src]) img) src = true := by
  rw [lookupSources_addSourceToImage, if_pos rfl, setTrue_sourceIsTrue]
  simp

theorem osListMatches_windows_under_linux :
    osListMatches (splitChars ',' ['w', 'i', 'n', 'd', 'o', 'w', 's']) OSType.Linux
      = false := by decide

theorem osListMatches_windowsLinux_under_linux :
    osListMatches (splitChars ',' ['w', 'i', 'n', 'd', 'o', 'w', 's', ',', 'l', 'i', 'n', 'u', 'x'])
      OSType.Linux = true := by decide

theorem osListMatches_windowsLinux_under_windows :
    osListMatches (splitChars ',' ['w', 'i', 'n', 'd', 'o', 'w', 's', ',', 'l', 'i', 'n', 'u', 'x'])
      OSType.Windows = true := by decide

/-- C1 (amended): for every mapping node, under both extractors an image
declared os: windows is never emitted in a Linux-targeted run and an image
with no os field is never emitted in a Windows-targeted run; an image
declared os: windows,linux is emitted in both runs by the charts.go
extractor (pickImagesFromValuesMap's visitor), but the resolve.go extractor
generateImages recognizes only the exact os value windows, so it emits such
an image only in the Linux-targeted run and leaves the Windows-targeted run
untouched. -/
theorem os_partitioning (c : String) (m : YMap) (out : ImagesSet) :
    (m.lookup "os" = some (.str "windows") →
      generateImages c m out .Linux = out ∧ pickVisitor out c .Linux m = out) ∧
    (m.lookup "os" = none →
      generateImages c m out .Windows = out ∧ pickVisitor out c .Windows m = out) ∧
    (∀ repo tag, m.lookup "repository" = some (.str repo) →
      m.lookup "tag" = some (.str tag) →
      m.lookup "os" = some (.str "windows,linux") →
      sourceIsTrue (lookupSources (pickVisitor out c .Linux m) (repo ++ ":" ++ tag)) c = true ∧
      sourceIsTrue (lookupSources (pickVisitor out c .Windows m) (repo ++ ":" ++ tag)) c
        = true ∧
      sourceIsTrue (lookupSources (generateImages c m out .Linux) (repo ++ ":" ++ tag)) c
        = true ∧
      generateImages c m out .Windows = out) := by
  refine ⟨?_, ?_, ?_⟩
  · intro hos
    constructor
    · rcases hrepo : m.lookup "repository" with _ | v
      · simp [generateImages, hrepo]
      · cases v <;> simp [generateImages, hrepo] <;>
          rcases htag : m.lookup "tag" with _ | tag <;> simp [htag, hos]
    · rcases hrepo : m.lookup "repository" with _ | v
      · simp [pickVisitor, hrepo]
      · cases v <;> simp [pickVisitor, hrepo] <;>
          rcases htag : m.lookup "tag" with _ | tag <;> simp [htag, hos] <;>
          cases tag <;> simp [hos, osListMatches_windows_under_linux]
  · intro hos
    constructor
    · rcases hrepo : m.lookup "repository" with _ | v
      · simp [generateImages, hrepo]
      · cases v <;> simp [generateImages, hrepo] <;>
          rcases htag : m.lookup "tag" with _ | tag <;> simp [htag, hos]
    · rcases hrepo : m.lookup "repository" with _ | v
      · simp [pickVisitor, hrepo]
      · cases v <;> simp [pickVisitor, hrepo] <;>
          rcases htag : m.lookup "tag" with _ | tag <;> simp [htag, hos] <;>
          cases tag <;> simp [hos]
  · intro repo tag hrepo htag hos
    refine ⟨?_, ?_, ?_, ?_⟩
    · simp [pickVisitor, hrepo, htag, hos, osListMatches_windowsLinux_under_linux,
        sourceIsTrue_after_add]
    · simp [pickVisitor, hrepo, htag, hos, osListMatches_windowsLinux_under_windows,
        sourceIsTrue_after_add]
    · simp [generateImages, hrepo, htag, hos, goFormatV, sourceIsTrue_after_add]
    · simp [generateImages, hrepo, htag, hos]

/-- A node declaring os windows. -/
def cexOsWindows : YMap :=
  .cons "repository" (.str "r") (.cons "tag" (.str "t") (.cons "os" (.str "windows") .nil))

/-- A node with no os field. -/
def cexOsAbsent : YMap :=
  .cons "repository" (.str "r") (.cons "tag" (.str "t") .nil)

/-- A node declaring os windows,linux. -/
def cexOsBoth : YMap :=
  .cons "repository" (.str "r") (.cons "tag" (.str "t") (.cons "os" (.str "windows,linux") .nil))

/-- C1 witness: the amended theorem applied at concrete nodes: the os
windows node is not emitted in a Linux run, the os-less node is not emitted
in a Windows run, and the os windows,linux node is emitted by the charts.go
extractor in both runs while generateImages leaves the Windows run
untouched. -/
theorem os_partitioning_witness :
    (generateImages "c" cexOsWindows [] .Linux = [] ∧
      pickVisitor [] "c" .Linux cexOsWindows = []) ∧
    (generateImages "c" cexOsAbsent [] .Windows = [] ∧
      pickVisitor [] "c" .Windows cexOsAbsent = []) ∧
    (sourceIsTrue (lookupSources (pickVisitor [] "c" .Linux cexOsBoth) "r:t") "c" = true ∧
      sourceIsTrue (lookupSources (pickVisitor [] "c" .Windows cexOsBoth) "r:t") "c" = true ∧
      sourceIsTrue (lookupSources (generateImages "c" cexOsBoth [] .Linux) "r:t") "c" = true ∧
      generateImages "c" cexOsBoth [] .Windows = []) :=
  ⟨(os_partitioning "c" cexOsWindows []).1 (by decide),
   (os_partitioning "c" cexOsAbsent []).2.1 (by decide),
   (os_partitioning "c" cexOsBoth []).2.2 "r" "t" (by decide) (by decide) (by decide)⟩

/-- C1 counterexample: a mapping node carrying a repository and tag pair and
declaring os windows,linux is not emitted by generateImages in a
Windows-targeted run: the accumulator is left empty, while the claim
requires the image to appear in both the Linux-targeted and the
Windows-targeted run of every extraction path. -/
theorem generateImages_windowsLinux_missing_from_windows_run :
    cexOsBoth.lookup "os" = some (.str "windows,linux") ∧
    cexOsBoth.lookup "repository" = some (.str "r") ∧
    cexOsBoth.lookup "tag" = some (.str "t") ∧
    generateImages "c" cexOsBoth [] OSType.Windows = [] :=
  ⟨rfl, rfl, rfl, rfl⟩

/-- C7 (amended): for a mapping node with a string repository field, a tag
field and no os field, targeted at Linux: generateImages emits
repository:tag with the tag value of any type stringified; the charts.go
visitor emits exactly the same image when the tag is a string, but requires
the tag to be a string and is a no-op on a non-string tag for any target;
and for both extractors a node missing the repository field or the tag
field is a no-op. -/
theorem extraction_tag_tolerance (c : String) (m : YMap) (out : ImagesSet) (ost : OSType) :
    (∀ repo tag, m.lookup "repository" = some (.str repo) → m.lookup "tag" = some tag →
      m.lookup "os" = none →
      generateImages c m out .Linux = addSourceToImage out (repo ++ ":" ++ goFormatV tag) [c] ∧
      sourceIsTrue
        (lookupSources (generateImages c m out .Linux) (repo ++ ":" ++ goFormatV tag)) c
        = true) ∧
    (∀ repo tag, m.lookup "repository" = some (.str repo) →
      m.lookup "tag" = some (.str tag) → m.lookup "os" = none →
      pickVisitor out c .Linux m = addSourceToImage out (repo ++ ":" ++ tag) [c]) ∧
    (∀ repo tag, m.lookup "repository" = some (.str repo) → m.lookup "tag" = some tag →
      (∀ x, tag ≠ .str x) → pickVisitor out c ost m = out) ∧
    (m.lookup "repository" = none →
      generateImages c m out ost = out ∧ pickVisitor out c ost m = out) ∧
    (m.lookup "tag" = none →
      generateImages c m out ost = out ∧ pickVisitor out c ost m = out) := by
  refine ⟨?_, ?_, ?_, ?_, ?_⟩
  · intro repo tag hrepo htag hos
    refine ⟨?_, ?_⟩
    · simp [generateImages, hrepo, htag, hos]
    · simp [generateImages, hrepo, htag, hos, sourceIsTrue_after_add]
  · intro repo tag hrepo htag hos
    simp [pickVisitor, hrepo, htag, hos]
  · intro repo tag hrepo htag hns
    rcases tag with x | x | x | _ | x | x
    · exact absurd rfl (hns x)
    · simp [pickVisitor, hrepo, htag]
    · simp [pickVisitor, hrepo, htag]
    · simp [pickVisitor, hrepo, htag]
    · simp [pickVisitor, hrepo, htag]
    · simp [pickVisitor, hrepo, htag]
  · intro hrepo
    exact ⟨by simp [generateImages, hrepo], by simp [pickVisitor, hrepo]⟩
  · intro htag
    constructor
    · rcases hrepo : m.lookup "repository" with _ | v
      · simp [generateImages, hrepo]
      · cases v <;> simp [generateImages, hrepo, htag]
    · rcases hrepo : m.lookup "repository" with _ | v
      · simp [pickVisitor, hrepo]
      · cases v <;> simp [pickVisitor, hrepo, htag]

/-- A node with a string repository and an integer tag. -/
def cexIntTag : YMap := .cons "repository" (.str "foo") (.cons "tag" (.int 1) .nil)

/-- C7 witness: the amended theorem applied at concrete nodes: generateImages
stringifies the integer tag 1 into foo:1, and the charts.go visitor is a
no-op on the same node. -/
theorem extraction_tag_tolerance_witness :
    (generateImages "chartA:1.0" cexIntTag [] .Linux
        = addSourceToImage [] "foo:1" ["chartA:1.0"] ∧
      sourceIsTrue (lookupSources (generateImages "chartA:1.0" cexIntTag [] .Linux) "foo:1")
        "chartA:1.0" = true) ∧
    pickVisitor [] "chartA:1.0" OSType.Linux cexIntTag = [] :=
  ⟨(extraction_tag_tolerance "chartA:1.0" cexIntTag [] .Linux).1 "foo" (.int 1)
      (by decide) (by decide) (by decide),
   (extraction_tag_tolerance "chartA:1.0" cexIntTag [] .Linux).2.2.1 "foo" (.int 1)
      (by decide) (by decide) (fun x h => by cases h)⟩

/-- C7 counterexample: a mapping node with a string repository and a
non-string tag (the integer 1): the claim requires the extractor to emit
foo:1, but the charts.go extractor pickImagesFromValuesMap leaves the
accumulator empty in a Linux-targeted run because its tag type assertion
requires a string. -/
theorem pickVisitor_skips_nonstring_tag :
    cexIntTag.lookup "repository" = some (.str "foo") ∧
    cexIntTag.lookup "tag" = some (.int 1) ∧
    pickImagesFromValuesMap [] cexIntTag "chartA:1.0" OSType.Linux = .ok [] :=
  ⟨rfl, rfl, rfl⟩

/-! Idempotence and ordering facts about source insertion and the rendered
source list. -/

theorem setTrue_idem (l : SourceSet) (src : String) :
    setTrue (setTrue l src) src = setTrue l src := by
  induction l with
  | nil => simp [setTrue]
  | cons p rest ih =>
    obtain ⟨k, b⟩ := p
    by_cases hk : k = src
    · subst hk
      simp [setTrue]
    · have hk' : (k == src) = false := by simpa using hk
      simp [setTrue, hk', ih]

theorem addSourceToImage_idem (s : ImagesSet) (img src : String) :
    addSourceToImage (addSourceToImage s img [src]) img [src] = addSourceToImage s img [src] := by
  induction s with
  | nil => simp [addSourceToImage, setTrue_idem]
  | cons e rest ih =>
    obtain ⟨k, srcs⟩ := e
    by_cases hk : k = img
    · subst hk
      simp [addSourceToImage, setTrue_idem]
    · have hk' : (k == img) = false := by simpa using hk
      simp [addSourceToImage, hk', ih]

theorem any_key_false_not_mem (l : SourceSet) (src : String)
    (h : l.any (fun p => p.1 == src) = false) : src ∉ l.map Prod.fst := by
  intro hm
  rcases List.mem_map.mp hm with ⟨p, hp, hfst⟩
  rw [List.any_eq_false] at h
  exact h p hp (by simp [hfst])

theorem setTrue_keys_nodup (l : SourceSet) (src : String)
    (hnd : (l.map Prod.fst).Nodup) : ((setTrue l src).map Prod.fst).Nodup := by
  rw [setTrue_keys]
  by_cases hc : l.any (fun p => p.1 == src) = true
  · simpa [hc] using hnd
  · have hc' : l.any (fun p => p.1 == src) = false := by
      cases h : l.any (fun p => p.1 == src)
      · rfl
      · exact absurd h hc
    simp only [hc', Bool.false_eq_true, if_neg, not_false_eq_true]
    rw [List.nodup_append]
    exact ⟨hnd, List.nodup_singleton src,
      by simpa [List.disjoint_singleton] using any_key_false_not_mem l src hc'⟩

theorem trueSourceNames_nodup (l : SourceSet) (hnd : (l.map Prod.fst).Nodup) :
    (trueSourceNames l).Nodup :=
  List.Nodup.sublist (List.Sublist.map Prod.fst (List.filter_sublist l)) hnd

theorem sortedTrueSources_sorted (l : SourceSet) :
    (sortedTrueSources l).Sorted strLeR :=
  List.sorted_insertionSort strLeR (trueSourceNames l)

theorem sortedTrueSources_nodup (l : SourceSet) (hnd : (l.map Prod.fst).Nodup) :
    (sortedTrueSources l).Nodup :=
  (List.perm_insertionSort strLeR (trueSourceNames l)).nodup_iff.mpr
    (trueSourceNames_nodup l hnd)

theorem sortedTrueSources_mem_iff (l : SourceSet) (hnd : (l.map Prod.fst).Nodup)
    (t : String) : t ∈ sortedTrueSources l ↔ sourceIsTrue l t = true := by
  unfold sortedTrueSources
  rw [(List.perm_insertionSort strLeR (trueSourceNames l)).mem_iff]
  exact ⟨mem_trueSourceNames_sourceIsTrue l t hnd, sourceIsTrue_mem_trueSourceNames l t⟩

/-- C9: inserting the same image and source pair twice is a no-op on the
accumulator; after two insertions under the same image the true sources
under that image are exactly the union of the previously true sources with
the two inserted labels; insertion never turns any previously true source
off anywhere; and the rendered entry for the image (getSourcesList joins
sortedTrueSources with commas) is sorted ascending with no duplicates and
carries exactly the union. -/
theorem source_union (s : ImagesSet) (img src1 src2 : String)
    (hnd : ((lookupSources s img).map Prod.fst).Nodup) :
    addSourceToImage (addSourceToImage s img [src1]) img [src1]
      = addSourceToImage s img [src1] ∧
    (∀ t, sourceIsTrue
        (lookupSources (addSourceToImage (addSourceToImage s img [src1]) img [src2]) img) t
      = (sourceIsTrue (lookupSources s img) t || t == src1 || t == src2)) ∧
    (∀ i t, sourceIsTrue (lookupSources s i) t = true →
      sourceIsTrue
        (lookupSources (addSourceToImage (addSourceToImage s img [src1]) img [src2]) i) t
        = true) ∧
    (List.Sorted strLeR (sortedTrueSources
        (lookupSources (addSourceToImage (addSourceToImage s img [src1]) img [src2]) img)) ∧
      List.Nodup (sortedTrueSources
        (lookupSources (addSourceToImage (addSourceToImage s img [src1]) img [src2]) img)) ∧
      ∀ t, t ∈ sortedTrueSources
          (lookupSources (addSourceToImage (addSourceToImage s img [src1]) img [src2]) img) ↔
        (sourceIsTrue (lookupSources s img) t || t == src1 || t == src2) = true) := by
  have hlook : lookupSources (addSourceToImage (addSourceToImage s img [src1]) img [src2]) img
      = setTrue (setTrue (lookupSources s img) src1) src2 := by
    rw [lookupSources_addSourceToImage, if_pos rfl, lookupSources_addSourceToImage, if_pos rfl]
  have hnd2 : ((setTrue (setTrue (lookupSources s img) src1) src2).map Prod.fst).Nodup :=
    setTrue_keys_nodup _ src2 (setTrue_keys_nodup _ src1 hnd)
  have hval : ∀ t, sourceIsTrue (setTrue (setTrue (lookupSources s img) src1) src2) t
      = (sourceIsTrue (lookupSources s img) t || t == src1 || t == src2) := by
    intro t
    rw [setTrue_sourceIsTrue, setTrue_sourceIsTrue]
    cases sourceIsTrue (lookupSources s img) t <;> cases h1 : t == src1 <;>
      cases h2 : t == src2 <;> simp [h1, h2]
  refine ⟨addSourceToImage_idem s img src1, ?_, ?_, ?_, ?_, ?_⟩
  · intro t
    rw [hlook]
    exact hval t
  · intro i t ht
    exact sourceIsTrue_monotone_add _ img src2 i t
      (sourceIsTrue_monotone_add _ img src1 i t ht)
  · exact sortedTrueSources_sorted _
  · rw [hlook]
    exact sortedTrueSources_nodup _ hnd2
  · intro t
    rw [hlook, sortedTrueSources_mem_iff _ hnd2 t]
    rw [hval t]

/-- C9 witness: the source-union theorem applied at a concrete accumulator
holding image i with source a: inserting x twice is a no-op, and after
inserting x then y the label a remains true as part of the union. -/
theorem source_union_witness :
    ((lookupSources [("i", [("a", true)])] "i").map Prod.fst).Nodup ∧
    addSourceToImage (addSourceToImage [("i", [("a", true)])] "i" ["x"]) "i" ["x"]
      = addSourceToImage [("i", [("a", true)])] "i" ["x"] ∧
    sourceIsTrue
      (lookupSources
        (addSourceToImage (addSourceToImage [("i", [("a", true)])] "i" ["x"]) "i" ["y"]) "i")
      "a"
      = (sourceIsTrue (lookupSources [("i", [("a", true)])] "i") "a" || "a" == "x"
          || "a" == "y") :=
  ⟨by decide, (source_union [("i", [("a", true)])] "i" "x" "y" (by decide)).1,
    (source_union [("i", [("a", true)])] "i" "x" "y" (by decide)).2.1 "a"⟩

/-! Invariants of the mirror normalization loop. -/

theorem sourceIsTrue_monotone_foldl_add (names : List String) (acc : ImagesSet)
    (conv i t : String) (h : sourceIsTrue (lookupSources acc i) t = true) :
    sourceIsTrue
      (lookupSources (names.foldl (fun a source => addSourceToImage a conv [source]) acc) i) t
      = true := by
  induction names generalizing acc with
  | nil => exact h
  | cons n rest ih => exact ih _ (sourceIsTrue_monotone_add acc conv n i t h)

theorem sourceIsTrue_foldl_add_mem (names : List String) (acc : ImagesSet) (conv t : String)
    (h : t ∈ names) :
    sourceIsTrue
      (lookupSources (names.foldl (fun a source => addSourceToImage a conv [source]) acc) conv)
      t = true := by
  induction names generalizing acc with
  | nil => cases h
  | cons n rest ih =>
    rcases List.mem_cons.mp h with h | h
    · subst h
      exact sourceIsTrue_monotone_foldl_add rest _ conv conv t (sourceIsTrue_after_add acc conv t)
    · exact ih _ h

theorem mem_imageKeys_foldl_add (names : List String) (acc : ImagesSet) (conv i : String)
    (h : i ∈ imageKeys (names.foldl (fun a source => addSourceToImage a conv [source]) acc)) :
    i ∈ imageKeys acc ∨ i = conv := by
  induction names generalizing acc with
  | nil => exact Or.inl h
  | cons n rest ih =>
    rcases ih _ h with h' | h'
    · exact (imageKeys_addSourceToImage_mem acc conv [n] i).mp h'
    · exact Or.inr h'

theorem imageKeys_foldl_add_of_mem (names : List String) (acc : ImagesSet) (conv i : String)
    (h : i ∈ imageKeys acc) :
    i ∈ imageKeys (names.foldl (fun a source => addSourceToImage a conv [source]) acc) := by
  induction names generalizing acc with
  | nil => exact h
  | cons n rest ih => exact ih _ (imageKeys_mem_addSourceToImage_of_mem acc conv [n] i h)

theorem convLoop_preserves_fixed (mirror : String → String) (todo : List String)
    (acc : ImagesSet) (k t : String) (hk : mirror k = k)
    (h : sourceIsTrue (lookupSources acc k) t = true) :
    sourceIsTrue (lookupSources (convLoop mirror todo acc) k) t = true := by
  induction todo generalizing acc with
  | nil => exact h
  | cons image rest ih =>
    by_cases him : image = mirror image
    · simp only [convLoop, if_pos him]
      exact ih _ h
    · simp only [convLoop, if_neg him]
      apply ih
      rw [lookupSources_eraseImage]
      have hne : k ≠ image := by
        intro hcontra
        subst hcontra
        exact him hk.symm
      rw [if_neg hne]
      exact sourceIsTrue_monotone_foldl_add _ _ _ k t h

theorem convLoop_keeps_fixed_key (mirror : String → String) (todo : List String)
    (acc : ImagesSet) (k : String) (hk : mirror k = k) (h : k ∈ imageKeys acc) :
    k ∈ imageKeys (convLoop mirror todo acc) := by
  induction todo generalizing acc with
  | nil => exact h
  | cons image rest ih =>
    by_cases him : image = mirror image
    · simp only [convLoop, if_pos him]
      exact ih _ h
    · simp only [convLoop, if_neg him]
      apply ih
      rw [imageKeys_eraseImage_mem]
      refine ⟨imageKeys_foldl_add_of_mem _ _ _ _ h, ?_⟩
      intro hcontra
      subst hcontra
      exact him hk.symm

theorem convLoop_keys_fixed (mirror : String → String)
    (hm : ∀ x, mirror (mirror x) = mirror x) (todo : List String) (acc : ImagesSet)
    (hinv : ∀ k ∈ imageKeys acc, mirror k = k ∨ k ∈ todo) :
    ∀ k ∈ imageKeys (convLoop mirror todo acc), mirror k = k := by
  induction todo generalizing acc with
  | nil =>
    intro k hk
    rcases hinv k hk with h | h
    · exact h
    · cases h
  | cons image rest ih =>
    by_cases him : image = mirror image
    · simp only [convLoop, if_pos him]
      apply ih
      intro k hk
      rcases hinv k hk with h | h
      · exact Or.inl h
      · rcases List.mem_cons.mp h with h' | h'
        · subst h'
          exact Or.inl him.symm
        · exact Or.inr h'
    · simp only [convLoop, if_neg him]
      apply ih
      intro k hk
      rw [imageKeys_eraseImage_mem] at hk
      obtain ⟨hk1, hkne⟩ := hk
      rcases mem_imageKeys_foldl_add _ _ _ _ hk1 with hmem | hconv
      · rcases hinv k hmem with h | h
        · exact Or.inl h
        · rcases List.mem_cons.mp h with h' | h'
          · exact absurd h' hkne
          · exact Or.inr h'
      · subst hconv
        exact Or.inl (hm image)

theorem convLoop_all_fixed (mirror : String → String) (todo : List String) (acc : ImagesSet)
    (h : ∀ k ∈ todo, mirror k = k) : convLoop mirror todo acc = acc := by
  induction todo with
  | nil => rfl
  | cons image rest ih =>
    have hfix : image = mirror image := (h image (List.mem_cons_self image rest)).symm
    simp only [convLoop, if_pos hfix]
    exact ih (fun k hk => h k (List.mem_cons_of_mem image hk))

theorem convLoop_migrates (mirror : String → String)
    (hm : ∀ x, mirror (mirror x) = mirror x) :
    ∀ (todo : List String) (acc : ImagesSet) (img src : String), img ∈ todo →
      mirror img ≠ img → sourceIsTrue (lookupSources acc img) src = true →
      sourceIsTrue (lookupSources (convLoop mirror todo acc) (mirror img)) src = true := by
  intro todo
  induction todo with
  | nil =>
    intro acc img src hmem
    cases hmem
  | cons image rest ih =>
    intro acc img src hmem hne htrue
    by_cases heq : img = image
    · subst heq
      have hbr : ¬ img = mirror img := fun h => hne h.symm
      simp only [convLoop, if_neg hbr]
      apply convLoop_preserves_fixed mirror rest _ (mirror img) src (hm img)
      rw [lookupSources_eraseImage, if_neg hne]
      exact sourceIsTrue_foldl_add_mem _ _ _ src
        (sourceIsTrue_mem_trueSourceNames _ src htrue)
    · have hmem' : img ∈ rest := by
        rcases List.mem_cons.mp hmem with h | h
        · exact absurd h heq
        · exact h
      by_cases him : image = mirror image
      · simp only [convLoop, if_pos him]
        exact ih _ img src hmem' hne htrue
      · simp only [convLoop, if_neg him]
        apply ih _ img src hmem' hne
        rw [lookupSources_eraseImage, if_neg heq]
        exact sourceIsTrue_monotone_foldl_add _ _ _ img src htrue

/-- C4 (amended): assuming the canonicalization rule is idempotent, after
one pass of the mirror normalization over the accumulator: for every image
whose canonicalized name differs from the original, the old key is absent
from the result and every source that was true under the old key is true
under the new key; every image whose canonicalized name equals the original
remains present with all its previously true sources still true, though its
entry may additionally gain sources migrated from images that canonicalize
onto it, so it is not in general left unchanged. -/
theorem mirror_rename_semantics (mirror : String → String) (s : ImagesSet)
    (hm : ∀ x, mirror (mirror x) = mirror x) :
    ∀ img ∈ imageKeys s,
      (mirror img ≠ img →
        img ∉ imageKeys (convertMirroredImages mirror s) ∧
        ∀ src, sourceIsTrue (lookupSources s img) src = true →
          sourceIsTrue (lookupSources (convertMirroredImages mirror s) (mirror img)) src
            = true) ∧
      (mirror img = img →
        img ∈ imageKeys (convertMirroredImages mirror s) ∧
        ∀ src, sourceIsTrue (lookupSources s img) src = true →
          sourceIsTrue (lookupSources (convertMirroredImages mirror s) img) src = true) := by
  intro img hmem
  constructor
  · intro hne
    constructor
    · intro hcontra
      exact hne (convLoop_keys_fixed mirror hm (imageKeys s) s
        (fun k hk => Or.inr hk) img hcontra)
    · intro src h
      exact convLoop_migrates mirror hm (imageKeys s) s img src hmem hne h
  · intro hfix
    exact ⟨convLoop_keeps_fixed_key mirror (imageKeys s) s img hfix hmem,
      fun src h => convLoop_preserves_fixed mirror (imageKeys s) s img src hfix h⟩

/-- The docker.io-style rewrite used in the concrete instances: a maps to b,
everything else is already canonical. It is idempotent. -/
def cexMirror : String → String := fun s => if s == "a" then "b" else s

/-- An accumulator holding a renamed image a and a fixed-point image b. -/
def cexAcc : ImagesSet := [("a", [("s1", true)]), ("b", [("s2", true)])]

/-- C4 witness: the amended theorem applied to the concrete accumulator: the
renamed image a disappears and its source s1 becomes true under b. -/
theorem mirror_rename_semantics_witness :
    "a" ∈ imageKeys cexAcc ∧
    "a" ∉ imageKeys (convertMirroredImages cexMirror cexAcc) ∧
    sourceIsTrue (lookupSources (convertMirroredImages cexMirror cexAcc) (cexMirror "a"))
      "s1" = true :=
  ⟨by decide,
    ((mirror_rename_semantics cexMirror cexAcc
      (by intro x; by_cases h : x = "a" <;> simp [cexMirror, h]) "a" (by decide)).1
      (by decide)).1,
    ((mirror_rename_semantics cexMirror cexAcc
      (by intro x; by_cases h : x = "a" <;> simp [cexMirror, h]) "a" (by decide)).1
      (by decide)).2 "s1" (by decide)⟩

/-- C4 counterexample: in the accumulator holding a (renamed to b by the
rule) and b (already canonical), after one pass the image b, whose
canonicalized name equals the original, is not left unchanged: it gains the
migrated source s1 in addition to its own s2, while the claim requires such
images to be left unchanged with their sources intact. -/
theorem convertMirroredImages_changes_fixed_point_entry :
    cexMirror "b" = "b" ∧
    lookupSources cexAcc "b" = [("s2", true)] ∧
    lookupSources (convertMirroredImages cexMirror cexAcc) "b"
      = [("s2", true), ("s1", true)] ∧
    lookupSources (convertMirroredImages cexMirror cexAcc) "b" ≠ lookupSources cexAcc "b" :=
  ⟨rfl, rfl, by decide, by decide⟩

/-- C5: under the assumed precondition that the external canonicalization
rule is idempotent, running the mirror normalization twice yields the same
accumulator as running it once (and the pass, a structural fold, always
terminates). -/
theorem mirror_normalizer_idempotent (mirror : String → String) (s : ImagesSet)
    (hm : ∀ x, mirror (mirror x) = mirror x) :
    convertMirroredImages mirror (convertMirroredImages mirror s)
      = convertMirroredImages mirror s := by
  unfold convertMirroredImages
  exact convLoop_all_fixed mirror _ _
    (convLoop_keys_fixed mirror hm (imageKeys s) s (fun k hk => Or.inr hk))

/-- C5 witness: idempotence of the pass at the concrete accumulator and
rewrite rule. -/
theorem mirror_normalizer_idempotent_witness :
    convertMirroredImages cexMirror (convertMirroredImages cexMirror cexAcc)
      = convertMirroredImages cexMirror cexAcc :=
  mirror_normalizer_idempotent cexMirror cexAcc
    (by intro x; by_cases h : x = "a" <;> simp [cexMirror, h])

/-! Facts about the resolve.go range-selection loop. -/

theorem gvLoop_append (rv : String) (l : List ChartVersionR) :
    ∀ (acc res : List ChartVersionR), gvLoop rv l acc = .ok res →
      ∃ extra, res = acc ++ extra := by
  induction l with
  | nil =>
    intro acc res h
    exact ⟨[], by simpa [gvLoop] using (by cases h; simp)⟩
  | cons v rest ih =>
    intro acc res h
    cases hv : rancherVersionInMinMax rv v with
    | error e => rw [gvLoop, hv] at h; cases h
    | ok b =>
      cases b with
      | true =>
        rw [gvLoop, hv] at h
        obtain ⟨extra, hextra⟩ := ih (acc ++ [v]) res h
        exact ⟨[v] ++ extra, by simpa using hextra⟩
      | false =>
        rw [gvLoop, hv] at h
        exact ih acc res h

theorem gvLoop_all_false (rv : String) (l : List ChartVersionR)
    (h : ∀ v ∈ l, rancherVersionInMinMax rv v = .ok false) :
    ∀ acc, gvLoop rv l acc = .ok acc := by
  induction l with
  | nil => intro acc; rfl
  | cons v rest ih =>
    intro acc
    rw [gvLoop, h v (List.mem_cons_self v rest)]
    exact ih (fun w hw => h w (List.mem_cons_of_mem v hw)) acc

/-- C2 (amended): the resolve.go ranged selector getVersionsInRancherMinMaxRange
satisfies the claim: when every version's min and max evaluation succeeds
and admits nothing, it returns exactly the newest version (the head of the
newest-first list), and whenever it succeeds on a nonempty version list it
never returns zero versions. The parallel charts.go selector
filterChartVersions has no such fallback and can return zero versions. -/
theorem bundle_selection_fallback (rv : String) (v0 : ChartVersionR)
    (rest : List ChartVersionR) :
    ((∀ v ∈ v0 :: rest, rancherVersionInMinMax rv v = .ok false) →
      getVersionsInRancherMinMaxRange rv (v0 :: rest) = .ok [v0]) ∧
    (∀ res, getVersionsInRancherMinMaxRange rv (v0 :: rest) = .ok res → res ≠ []) := by
  constructor
  · intro hall
    unfold getVersionsInRancherMinMaxRange
    rw [gvLoop_all_false rv (v0 :: rest) hall []]
    simp
  · intro res hres
    unfold getVersionsInRancherMinMaxRange at hres
    cases hloop : gvLoop rv (v0 :: rest) [] with
    | error e =>
      simp only [hloop] at hres
      cases hres
    | ok cvs =>
      simp only [hloop] at hres
      by_cases hlen : cvs.length ≤ 0
      · rw [if_pos hlen] at hres
        cases hres
        simp
      · rw [if_neg hlen] at hres
        cases hres
        intro hcontra
        subst hcontra
        simp at hlen

/-- A version whose declared minimum 9.0.0 the target 2.6.3 does not meet. -/
def cexVersionNoFit : ChartVersionR :=
  ⟨"chart", "1.0.0", .ok (.cons "rancher_min_version" (.str "9.0.0") .nil)⟩

/-- C2 witness: the fallback theorem applied to a one-version bundle none of
whose versions admit 2.6.3: the selector still returns exactly that newest
version. -/
theorem bundle_selection_fallback_witness :
    rancherVersionInMinMax "2.6.3" cexVersionNoFit = .ok false ∧
    getVersionsInRancherMinMaxRange "2.6.3" [cexVersionNoFit] = .ok [cexVersionNoFit] :=
  ⟨by decide, (bundle_selection_fallback "2.6.3" cexVersionNoFit []).1 (by decide)⟩

/-- A charts.go version whose questions declare minimum 2.0.0, against a
1.0.0 target. -/
def cexLowChart : ChartVersionC := ⟨"chart", "1.0.0", .ok ⟨"2.0.0", ""⟩⟩

/-- C2 counterexample: the charts.go selector filterChartVersions, over a
bundle with one version whose range does not admit the target 1.0.0,
returns zero versions: there is no newest-version fallback, while the claim
requires the selector never to return zero versions for such a bundle. -/
theorem filterChartVersions_returns_zero_versions :
    systemChartsFilterFunc "1.0.0" cexLowChart = .ok false ∧
    filterChartVersions (systemChartsFilterFunc "1.0.0") [cexLowChart] = .ok [] :=
  ⟨by decide, by decide⟩

/-- C6 (amended): the charts.go selector filterChartVersions never aborts:
it always returns a nil error, and its result is exactly the versions whose
filter evaluation returned true, so a version whose compatibility-metadata
evaluation fails is skipped (excluded from the filtered set) and only that
version is lost. (The log call on the skipped error is a side effect outside
this embedding; the resolve.go selector getVersionsInRancherMinMaxRange
instead aborts on such an error, see the counterexample.) -/
theorem filter_error_degradation (filterFunc : ChartVersionC → Except String Bool)
    (chartVersions : List ChartVersionC) :
    filterChartVersions filterFunc chartVersions
      = .ok (chartVersions.filter (fun v =>
          match filterFunc v with
          | .ok true => true
          | _ => false)) := by
  unfold filterChartVersions
  congr 1
  induction chartVersions with
  | nil => rfl
  | cons v rest ih =>
    cases hf : filterFunc v with
    | error e => simp [filterLoop, hf, List.filter_cons, ih]
    | ok b => cases b <;> simp [filterLoop, hf, List.filter_cons, ih]

/-- A resolve.go version whose metadata fetch failed. -/
def cexVersionBadMeta : ChartVersionR := ⟨"chart", "1.0.0", .error "boom"⟩

/-- A resolve.go version admitting the target 2.6.3 (minimum 1.0.0). -/
def cexVersionFit : ChartVersionR :=
  ⟨"chart", "0.9.0", .ok (.cons "rancher_min_version" (.str "1.0.0") .nil)⟩

/-- C6 counterexample: in the resolve.go selector a single version whose
compatibility-metadata evaluation fails aborts the whole selection with
that error, even though the other version evaluates fine, while the claim
requires the selector to skip only the failing version and still succeed. -/
theorem getVersionsInRancherMinMaxRange_aborts_on_filter_error :
    rancherVersionInMinMax "2.6.3" cexVersionFit = .ok true ∧
    getVersionsInRancherMinMaxRange "2.6.3" [cexVersionBadMeta, cexVersionFit]
      = .error "boom" :=
  ⟨by decide, by decide⟩

/-! Determinism of the materialized outputs. -/

theorem lookupSources_nodup (s : ImagesSet)
    (hsrc : ∀ e ∈ s, ((e.2 : SourceSet).map Prod.fst).Nodup) (img : String) :
    ((lookupSources s img).map Prod.fst).Nodup := by
  unfold lookupSources
  cases hf : s.find? (fun e => e.1 == img) with
  | none => simp
  | some e => exact hsrc e (List.mem_of_find?_eq_some hf)

theorem getSourcesList_congr (l1 l2 : SourceSet)
    (h1 : (l1.map Prod.fst).Nodup) (h2 : (l2.map Prod.fst).Nodup)
    (h : ∀ t, sourceIsTrue l1 t = sourceIsTrue l2 t) :
    getSourcesList l1 = getSourcesList l2 := by
  unfold getSourcesList
  congr 1
  have hTN : (trueSourceNames l1).Perm (trueSourceNames l2) := by
    refine (List.perm_ext_iff_of_nodup (trueSourceNames_nodup l1 h1)
      (trueSourceNames_nodup l2 h2)).mpr ?_
    intro t
    constructor
    · intro ht
      exact sourceIsTrue_mem_trueSourceNames l2 t
        (h t ▸ mem_trueSourceNames_sourceIsTrue l1 t h1 ht)
    · intro ht
      exact sourceIsTrue_mem_trueSourceNames l1 t
        ((h t).symm ▸ mem_trueSourceNames_sourceIsTrue l2 t h2 ht)
  apply List.eq_of_perm_of_sorted ?_ (sortedTrueSources_sorted l1) (sortedTrueSources_sorted l2)
  unfold sortedTrueSources
  exact (List.perm_insertionSort strLeR _).trans
    (hTN.trans (List.perm_insertionSort strLeR _).symm)

/-- C8: the materialized outputs are a pure function of the accumulator's
extension: for two accumulators with the same image keys (as sets) and the
same true sources under every image, regardless of entry order,
generateImageAndSourceLists produces identical outputs; and the image list
is sorted ascending with unique entries, each image followed in the same
order by its comma-joined sorted source list. -/
theorem output_determinism (s1 s2 : ImagesSet)
    (h1 : (imageKeys s1).Nodup) (h2 : (imageKeys s2).Nodup)
    (hsrc1 : ∀ e ∈ s1, ((e.2 : SourceSet).map Prod.fst).Nodup)
    (hsrc2 : ∀ e ∈ s2, ((e.2 : SourceSet).map Prod.fst).Nodup)
    (hkeys : ∀ img, img ∈ imageKeys s1 ↔ img ∈ imageKeys s2)
    (hval : ∀ img t,
      sourceIsTrue (lookupSources s1 img) t = sourceIsTrue (lookupSources s2 img) t) :
    generateImageAndSourceLists s1 = generateImageAndSourceLists s2 ∧
    List.Sorted strLeR (generateImageAndSourceLists s1).1 ∧
    List.Nodup (generateImageAndSourceLists s1).1 := by
  have hperm : (imageKeys s1).Perm (imageKeys s2) :=
    (List.perm_ext_iff_of_nodup h1 h2).mpr hkeys
  have hsortEq : List.insertionSort strLeR (imageKeys s1)
      = List.insertionSort strLeR (imageKeys s2) :=
    List.eq_of_perm_of_sorted
      ((List.perm_insertionSort _ _).trans (hperm.trans (List.perm_insertionSort _ _).symm))
      (List.sorted_insertionSort _ _) (List.sorted_insertionSort _ _)
  have hfun : (fun image => image ++ " " ++ getSourcesList (lookupSources s1 image))
      = (fun image => image ++ " " ++ getSourcesList (lookupSources s2 image)) := by
    funext image
    rw [getSourcesList_congr _ _ (lookupSources_nodup s1 hsrc1 image)
      (lookupSources_nodup s2 hsrc2 image) (hval image)]
  refine ⟨?_, ?_, ?_⟩
  · unfold generateImageAndSourceLists
    rw [hsortEq, hfun]
  · exact List.sorted_insertionSort strLeR (imageKeys s1)
  · exact (List.perm_insertionSort strLeR (imageKeys s1)).nodup_iff.mpr h1

/-- Two permuted accumulators over images a and b. -/
def cexSet1 : ImagesSet := [("b", [("y", true)]), ("a", [("x", true)])]

/-- The same accumulator with the entries in the other order. -/
def cexSet2 : ImagesSet := [("a", [("x", true)]), ("b", [("y", true)])]

/-- C8 witness: the determinism theorem applied to two accumulators that
hold the same entries in different order: byte-identical outputs. -/
theorem output_determinism_witness :
    generateImageAndSourceLists cexSet1 = generateImageAndSourceLists cexSet2 ∧
    generateImageAndSourceLists cexSet1 = (["a", "b"], ["a x", "b y"]) :=
  ⟨(output_determinism cexSet1 cexSet2 (by decide) (by decide) (by decide) (by decide)
      (by intro img; constructor <;> intro h <;> simp [imageKeys, cexSet1, cexSet2] at h ⊢ <;>
        tauto)
      (by
        intro img t
        by_cases ha : img = "a"
        · subst ha; rfl
        · by_cases hb : img = "b"
          · subst hb; rfl
          · have ha' : ("a" == img) = false := by simpa using fun h => ha h.symm
            have hb' : ("b" == img) = false := by simpa using fun h => hb h.symm
            simp [cexSet1, cexSet2, lookupSources, List.find?, ha', hb'])).1,
   by decide⟩

/-- C10: whenever the three fetch phases are skipped or succeed, GetImages
returns its lists with a nil error: with empty systemChartPath, empty
chartPath and no rke system images it always returns ok, whatever the fetch
collaborators would do; and when both fetch collaborators succeed on every
input it also returns ok: the requirement-image injection, the
caller-supplied-list injection, the mirror normalization and the list
materialization are total and introduce no error. -/
theorem GetImages_nil_error {ρ : Type}
    (fetchImagesFromCharts : String → String → OSType → ImagesSet → Except String ImagesSet)
    (fetchImagesFromSystem : List ρ → OSType → ImagesSet → Except String ImagesSet)
    (mirror : String → String) (shellImage : String)
    (systemChartPath chartPath rancherVersion : String)
    (k3sUpgradeImages imagesFromArgs : List String)
    (rkeSystemImages : List ρ) (osType : OSType) :
    (systemChartPath = "" → chartPath = "" → rkeSystemImages = [] →
      ∃ lists, GetImages fetchImagesFromCharts fetchImagesFromSystem mirror shellImage
        systemChartPath chartPath rancherVersion k3sUpgradeImages imagesFromArgs
        rkeSystemImages osType = .ok lists) ∧
    ((∀ p s, ∃ r, fetchImagesFromCharts p rancherVersion osType s = .ok r) →
      (∀ s, ∃ r, fetchImagesFromSystem rkeSystemImages osType s = .ok r) →
      ∃ lists, GetImages fetchImagesFromCharts fetchImagesFromSystem mirror shellImage
        systemChartPath chartPath rancherVersion k3sUpgradeImages imagesFromArgs
        rkeSystemImages osType = .ok lists) := by
  constructor
  · intro h1 h2 h3
    subst h1
    subst h2
    subst h3
    simp [GetImages]
  · intro hC hS
    have step1 : ∃ r1, (if systemChartPath != "" then
        wrapErr "failed to fetch images from system charts"
          (fetchImagesFromCharts systemChartPath rancherVersion osType []) else .ok [])
        = .ok r1 := by
      by_cases h : (systemChartPath != "") = true
      · obtain ⟨r, hr⟩ := hC systemChartPath []
        exact ⟨r, by rw [if_pos h, hr]; rfl⟩
      · exact ⟨[], by rw [if_neg h]⟩
    obtain ⟨r1, e1⟩ := step1
    have step2 : ∃ r2, (if chartPath != "" then
        wrapErr "failed to fetch images from charts"
          (fetchImagesFromCharts chartPath rancherVersion osType r1) else .ok r1)
        = .ok r2 := by
      by_cases h : (chartPath != "") = true
      · obtain ⟨r, hr⟩ := hC chartPath r1
        exact ⟨r, by rw [if_pos h, hr]; rfl⟩
      · exact ⟨r1, by rw [if_neg h]⟩
    obtain ⟨r2, e2⟩ := step2
    have step3 : ∃ r3, (if 0 < rkeSystemImages.length then
        wrapErr "failed to fetch images from system images"
          (fetchImagesFromSystem rkeSystemImages osType r2) else .ok r2)
        = .ok r3 := by
      by_cases h : 0 < rkeSystemImages.length
      · obtain ⟨r, hr⟩ := hS r2
        exact ⟨r, by rw [if_pos h, hr]; rfl⟩
      · exact ⟨r2, by rw [if_neg h]⟩
    obtain ⟨r3, e3⟩ := step3
    refine ⟨generateImageAndSourceLists
      (convertMirroredImages mirror
        (setImages "k3sUpgrade" k3sUpgradeImages
          (setImages "rancher" imagesFromArgs
            (setRequirementImages shellImage osType r3)))), ?_⟩
    simp only [GetImages, e1, e2, e3]

/-- C10 witness: with all three fetch phases skipped, GetImages returns ok
even though the supplied collaborators always fail. -/
theorem GetImages_nil_error_witness :
    ∃ lists, GetImages (fun _ _ _ _ => .error "io") (fun (_ : List Unit) _ _ => .error "io")
      (fun s => s) "shell" "" "" "2.6.3" ["k3s:1"] ["extra:1"] [] .Linux = .ok lists :=
  (GetImages_nil_error (fun _ _ _ _ => .error "io") (fun (_ : List Unit) _ _ => .error "io")
    (fun s => s) "shell" "" "" "2.6.3" ["k3s:1"] ["extra:1"] [] .Linux).1 rfl rfl rfl
